import Mathlib

/-!
Verification of the OpenScribe audio-transcription core against its
specification.  The audio segmentation engine, WAV codec and transcript
session store are embedded as executable Lean definitions; the server
actions (Whisper transcription call, clinical-note generation) are embedded
from their TypeScript source.
-/

namespace OpenScribe

/-! ## Transcript stitching (overlap de-duplication) -/

/-- Modelled from the spec: transcript comparison during stitching is
case-insensitive, so a word is normalized by lowercasing it.  The stitching
implementation itself is not under `src/`; only its tests are. -/
def normWord (w : String) : String := String.mk (w.toList.map Char.toLower)

/-- Cut a character stream into maximal space-free runs; `acc` holds the
(reversed) run currently being read. -/
def splitWordsAux : List Char → List Char → List (List Char)
  | [], acc => if acc = [] then [] else [acc.reverse]
  | c :: cs, acc =>
    if c = ' ' then
      if acc = [] then splitWordsAux cs [] else acc.reverse :: splitWordsAux cs []
    else splitWordsAux cs (c :: acc)

/-- Modelled from the spec: whitespace-normalized comparison — a transcript
is split into its space-separated words, dropping empty pieces. -/
def wordsOf (s : String) : List String :=
  (splitWordsAux s.toList []).map String.mk

/-- Join words back together with a single separating space. -/
def joinWords (ws : List String) : String := String.intercalate " " ws

/-- Modelled from the spec: the last `k` words of the accumulated text
coincide, case-insensitively, with the first `k` words of the new
transcript, for a non-trivial `k` within both lengths. -/
def isOverlapAt (aw nw : List String) (k : Nat) : Bool :=
  decide (1 ≤ k) && decide (k ≤ aw.length) && decide (k ≤ nw.length) &&
    decide ((aw.drop (aw.length - k)).map normWord = (nw.take k).map normWord)

/-- Largest `k ≤ bound` at which the two word lists overlap, `0` if none. -/
def findOverlap (aw nw : List String) : Nat → Nat
  | 0 => 0
  | k + 1 => if isOverlapAt aw nw (k + 1) then k + 1 else findOverlap aw nw k

/-- Length (in words) of the longest suffix of `aw` that is a prefix of
`nw` under normalization. -/
def overlapWords (aw nw : List String) : Nat :=
  findOverlap aw nw (min aw.length nw.length)

/-- Modelled from the spec: the overlap-deduplication stitch.  The longest
suffix of the accumulated text that is (case-insensitively,
whitespace-normalized) a prefix of the new transcript is dropped from the
new transcript and the remainder is appended with a single separating
space; with no match the full transcript is appended; onto empty
accumulated text the transcript is appended verbatim. -/
def stitchStrings (acc new : String) : String :=
  if acc = "" then new
  else
    let k := overlapWords (wordsOf acc) (wordsOf new)
    if k = 0 then acc ++ " " ++ new
    else acc ++ " " ++ joinWords ((wordsOf new).drop k)

/-! ## Session store (transcript ledger and stitching state machine) -/

/-- Modelled from the spec: an immutable per-segment value. -/
structure Segment where
  seqNo : Nat
  startMs : Nat
  endMs : Nat
  durationMs : Nat
  overlapMs : Nat
  transcript : String
deriving DecidableEq, Repr, Inhabited

/-- Modelled from the spec: events published to a session's subscribers — a
"segment" event carries the updated stitched text and the segment's own
fields, a "final" event carries the final transcript. -/
inductive SessionEvent where
  | segment (seqNo : Nat) (stitchedText : String) (seg : Segment)
  | final (finalTranscript : String)
deriving DecidableEq, Repr

/-- The ledger's seqNo-keyed segment mapping. -/
abbrev SegMap := List (Nat × Segment)

/-- Insert or overwrite the entry at the segment's own seqNo. -/
def insertSeg (m : SegMap) (seg : Segment) : SegMap :=
  (seg.seqNo, seg) :: m.filter (fun p => decide (p.1 ≠ seg.seqNo))

/-- Modelled from the spec: one session's ledger — the seqNo-keyed segment
map, the cursor (highest contiguous seqNo stitched, unset initially), the
accumulated stitched text, and the final transcript once set. -/
structure SessionLedger where
  segments : SegMap
  cursor : Option Nat
  stitched : String
  finalTranscript : Option String
deriving DecidableEq, Repr

/-- A fresh, empty session ledger. -/
def emptyLedger : SessionLedger :=
  { segments := [], cursor := none, stitched := "", finalTranscript := none }

/-- The next stitchable seqNo: `0` when the cursor is unset, else
`cursor + 1`.  This also counts the segments stitched so far. -/
def nextSeq : Option Nat → Nat
  | none => 0
  | some c => c + 1

/-- Transcript stored at a seqNo (empty when absent). -/
def transcriptAt (m : SegMap) (i : Nat) : String :=
  match m.lookup i with
  | some s => s.transcript
  | none => ""

/-- Segment stored at a seqNo (default when absent). -/
def segAt (m : SegMap) (i : Nat) : Segment :=
  (m.lookup i).getD default

/-- The deterministic stitch of the transcripts of segments `0..n-1`. -/
def stitchUpTo (m : SegMap) : Nat → String
  | 0 => ""
  | n + 1 => stitchStrings (stitchUpTo m n) (transcriptAt m n)

/-- Modelled from the spec: drain held segments — while the segment at the
next stitchable seqNo is present, stitch its transcript onto the
accumulated text, advance the cursor, and publish a "segment" event.
`fuel` bounds the iteration count of the source's loop. -/
def drainLoop : Nat → SessionLedger → SessionLedger × List SessionEvent
  | 0, led => (led, [])
  | fuel + 1, led =>
    match led.segments.lookup (nextSeq led.cursor) with
    | none => (led, [])
    | some seg =>
      let st := stitchStrings led.stitched seg.transcript
      let led' : SessionLedger :=
        { led with cursor := some (nextSeq led.cursor), stitched := st }
      let res := drainLoop fuel led'
      (res.1, SessionEvent.segment (nextSeq led.cursor) st seg :: res.2)

/-- Modelled from the spec: `addSegment` inserts/overwrites the segment at
its seqNo; when the seqNo is exactly the next stitchable one the held
sequence is drained (stitch, advance cursor, publish per segment) until a
gap; otherwise the segment is only stored.  Returns the updated ledger and
the published events. -/
def addSegment (led : SessionLedger) (seg : Segment) : SessionLedger × List SessionEvent :=
  let led1 : SessionLedger := { led with segments := insertSeg led.segments seg }
  if seg.seqNo = nextSeq led.cursor then drainLoop (led1.segments.length + 1) led1
  else (led1, [])

/-- Modelled from the spec: `setFinalTranscript` unconditionally records
the text as the final transcript and publishes one "final" event. -/
def setFinalTranscript (led : SessionLedger) (text : String) :
    SessionLedger × List SessionEvent :=
  ({ led with finalTranscript := some text }, [SessionEvent.final text])

/-- The session-store invariant from the spec: the stitched text is the
deterministic stitch of segments `0..cursor` in order, all of which are
present in the ledger. -/
def Inv (led : SessionLedger) : Prop :=
  led.stitched = stitchUpTo led.segments (nextSeq led.cursor)
    ∧ ∀ i < nextSeq led.cursor, (led.segments.lookup i).isSome = true

instance (led : SessionLedger) : Decidable (Inv led) := by
  unfold Inv; infer_instance

/-- The ledger is fully drained: no segment is held at the next stitchable
seqNo. -/
def Drained (led : SessionLedger) : Prop :=
  led.segments.lookup (nextSeq led.cursor) = none

/-- The events a full drain starting at seqNo `start` publishes for `n`
stitched segments: consecutive increasing seqNos, each carrying the
running stitched prefix and the stored segment. -/
def eventsFrom (m : SegMap) (start : Nat) : Nat → List SessionEvent
  | 0 => []
  | n + 1 =>
    SessionEvent.segment start (stitchUpTo m (start + 1)) (segAt m start)
      :: eventsFrom m (start + 1) n

/-- The number of ledger entries holding a seqNo at or beyond `n`. -/
def countFrom (m : SegMap) (n : Nat) : Nat :=
  (m.filter (fun p => decide (n ≤ p.1))).length

/-- A reachable session state: the stitching invariant holds, the ledger
is fully drained, and `P` describes exactly the seqNos stored so far. -/
def GoodState (led : SessionLedger) (P : Nat → Prop) : Prop :=
  Inv led ∧ Drained led ∧ ∀ i, ((led.segments.lookup i).isSome = true ↔ P i)

/-- The deterministic stitch of the transcripts of a fixed segment
assignment `f` for seqNos `0..n-1`. -/
def stitchOf (f : Nat → Segment) : Nat → String
  | 0 => ""
  | n + 1 => stitchStrings (stitchOf f n) (f n).transcript

/-- Fold a batch of `addSegment` calls, keeping only the ledger. -/
def applyAll (led : SessionLedger) (segs : List Segment) : SessionLedger :=
  segs.foldl (fun l s => (addSegment l s).1) led

/-! ## Segmenter -/

/-- Modelled from the spec: millisecond→sample conversion with `round()`
(half up), i.e. `round(ms / 1000 * rate)`. -/
def msToSamples (ms rate : Nat) : Nat := (2 * ms * rate + 1000) / 2000

/-- Modelled from the spec: the segmenter's loop — while at least
`segLen` samples remain, emit the first `segLen` samples as one window and
advance the read position by `hop`; the final partial remainder is kept.
`fuel` bounds the iteration count of the source's while-loop. -/
def drainGo (segLen hop : Nat) : Nat → List Int → List (List Int) × List Int
  | 0, buf => ([], buf)
  | fuel + 1, buf =>
    if segLen ≤ buf.length then
      let res := drainGo segLen hop fuel (buf.drop hop)
      (buf.take segLen :: res.1, res.2)
    else ([], buf)

/-- Modelled from the spec: `drainSegments` — fails fast with a
configuration error when `overlapSamples ≥ segmentLengthSamples` (the hop
would be non-positive), else drains all full windows, returning the emitted
windows and the remainder left in the buffer. -/
def drainSegments (segLen overlap : Nat) (buf : List Int) :
    Except String (List (List Int) × List Int) :=
  if segLen ≤ overlap then Except.error "overlap must be smaller than segment length"
  else Except.ok (drainGo segLen (segLen - overlap) (buf.length + 1) buf)

/-! ## WAV codec

Bytes are modelled as `List Nat` with values below 256.  Samples are
modelled as already-quantized integers (the float→int16 scaling of the
source is floating point and is not modelled; no claim depends on sample
values, only on their count). -/

/-- ASCII bytes of the marker `"RIFF"`. -/
def riffMark : List Nat := [82, 73, 70, 70]

/-- ASCII bytes of the marker `"WAVE"`. -/
def waveMark : List Nat := [87, 65, 86, 69]

/-- ASCII bytes of the marker `"fmt "`. -/
def fmtMark : List Nat := [102, 109, 116, 32]

/-- ASCII bytes of the marker `"data"`. -/
def dataMark : List Nat := [100, 97, 116, 97]

/-- A 16-bit little-endian field. -/
def u16le (n : Nat) : List Nat := [n % 256, n / 256 % 256]

/-- A 32-bit little-endian field. -/
def u32le (n : Nat) : List Nat :=
  [n % 256, n / 256 % 256, n / 65536 % 256, n / 16777216 % 256]

/-- Clamp a sample to the signed 16-bit range. -/
def clamp16 (v : Int) : Int := max (-32768) (min 32767 v)

/-- A signed 16-bit sample written little-endian (two's complement). -/
def i16le (v : Int) : List Nat :=
  [(v % 65536).toNat % 256, (v % 65536).toNat / 256 % 256]

/-- Modelled from the spec: `createWavBlob` (the codec's `encode`) — the
44-byte canonical RIFF/WAVE header (PCM format code 1, one channel, the
given sample rate, 16-bit depth, derived byte rate and block align)
followed by the clamped samples in little-endian. -/
def createWavBlob (samples : List Int) (sampleRate : Nat) : List Nat :=
  let dataSize := 2 * samples.length
  riffMark ++ u32le (36 + dataSize) ++ waveMark
    ++ fmtMark ++ u32le 16 ++ u16le 1 ++ u16le 1 ++ u32le sampleRate
    ++ u32le (sampleRate * 2) ++ u16le 2 ++ u16le 16
    ++ dataMark ++ u32le dataSize
    ++ (samples.map (fun v => i16le (clamp16 v))).flatten

/-- Modelled from the spec: WAV metadata — sample rate, channel count, bit
depth and the computed duration in milliseconds. -/
structure WavInfo where
  sampleRate : Nat
  numChannels : Nat
  bitDepth : Nat
  durationMs : ℚ
deriving DecidableEq, Repr

/-- Modelled from the spec: `parseWavHeader` — reads the 44-byte canonical
header (bytes 0-3 `"RIFF"`, 8-11 `"WAVE"`, 12-15 `"fmt "`, 22-23 channel
count, 24-27 sample rate, 34-35 bit depth, 40-43 data size, all
little-endian), fails with a format error when the input is shorter than a
header or the RIFF/WAVE/`fmt ` markers are absent, else returns the sample
rate, channel count, bit depth and the duration
`dataBytes / (channels × bitDepth/8) / sampleRate × 1000`. -/
def parseWavHeader (bytes : List Nat) : Option WavInfo :=
  match bytes with
  | r0 :: r1 :: r2 :: r3 :: _f0 :: _f1 :: _f2 :: _f3 :: w0 :: w1 :: w2 :: w3 ::
    m0 :: m1 :: m2 :: m3 :: _c0 :: _c1 :: _c2 :: _c3 :: _a0 :: _a1 :: ch0 :: ch1 ::
    s0 :: s1 :: s2 :: s3 :: _b0 :: _b1 :: _b2 :: _b3 :: _g0 :: _g1 :: d0 :: d1 ::
    _t0 :: _t1 :: _t2 :: _t3 :: z0 :: z1 :: z2 :: z3 :: _rest =>
    if [r0, r1, r2, r3] = riffMark ∧ [w0, w1, w2, w3] = waveMark
        ∧ [m0, m1, m2, m3] = fmtMark then
      let numChannels := ch0 + 256 * ch1
      let sampleRate := s0 + 256 * s1 + 65536 * s2 + 16777216 * s3
      let bitDepth := d0 + 256 * d1
      let dataSize := z0 + 256 * z1 + 65536 * z2 + 16777216 * z3
      let durationMs : ℚ :=
        (dataSize : ℚ) / ((numChannels : ℚ) * ((bitDepth : ℚ) / 8)) / (sampleRate : ℚ) * 1000
      some { sampleRate := sampleRate, numChannels := numChannels,
             bitDepth := bitDepth, durationMs := durationMs }
    else none
  | _ => none

/-! ## Server actions (`transcribeAudio`, `generateClinicalNote`)

Embedded from the TypeScript server-action source.  The network is
represented by the response the single `fetch` would observe; the requests
the call performs are returned alongside the result. -/

/-- One upstream Whisper request as assembled by `transcribeAudio`
(multipart file name and model field). -/
structure WhisperRequest where
  filename : String
  model : String
deriving DecidableEq, Repr

/-- The upstream HTTP response as observed by `transcribeAudio`: the ok
flag, status code, raw body text, and the `text` field of the parsed JSON
body (`none` when the field is missing, null or undefined). -/
structure WhisperResponse where
  ok : Bool
  status : Nat
  body : String
  textField : Option String
deriving DecidableEq, Repr

/-- The errors `transcribeAudio` throws: missing credentials, or an
upstream rejection carrying the HTTP status and error body. -/
inductive TranscribeError where
  | missingApiKey
  | apiError (status : Nat) (body : String)
deriving DecidableEq, Repr

/-- `pat` is a prefix of `s` (character lists). -/
def charPrefixEq : List Char → List Char → Bool
  | [], _ => true
  | _ :: _, [] => false
  | p :: ps, c :: cs => decide (p = c) && charPrefixEq ps cs

/-- `pat` occurs inside `s` (character lists). -/
def hasSubstr (pat : List Char) : List Char → Bool
  | [] => charPrefixEq pat []
  | c :: cs => charPrefixEq pat (c :: cs) || hasSubstr pat cs

/-- JavaScript's `String.prototype.includes`. -/
def strIncludes (s pat : String) : Bool := hasSubstr pat.toList s.toList

/-- The file name `transcribeAudio` derives from the audio blob's MIME
type. -/
def filenameFor (blobType : String) : String :=
  if strIncludes blobType "mp4" then "audio.mp4"
  else if strIncludes blobType "mpeg" then "audio.mpeg"
  else if strIncludes blobType "wav" then "audio.wav"
  else "audio.webm"

/-- `transcribeAudio` from the server-action source: with no API key it
throws before any network request; otherwise it performs exactly one
upstream request, throws an error carrying the status and body when the
response is not ok, and on success returns the JSON body's `text` field
with `""` for a missing/null field (`result.text || ""`). -/
def transcribeAudio (blobType : String) (apiKey : Option String)
    (resp : WhisperResponse) : Except TranscribeError String × List WhisperRequest :=
  match apiKey with
  | none => (Except.error TranscribeError.missingApiKey, [])
  | some _ =>
    let req : WhisperRequest := { filename := filenameFor blobType, model := "whisper-1" }
    if resp.ok then (Except.ok (resp.textField.getD ""), [req])
    else (Except.error (TranscribeError.apiError resp.status resp.body), [req])

/-- JavaScript's `String.prototype.trim`: strip leading and trailing
whitespace. -/
def jsTrim (s : String) : String :=
  String.mk (((s.toList.dropWhile Char.isWhitespace).reverse.dropWhile Char.isWhitespace).reverse)

/-- The fixed empty note structure `generateClinicalNote` returns for an
empty transcript: the six section headers and nothing else. -/
def emptyNote : String :=
  "Chief Complaint:\n\n\nHPI:\n\n\nROS:\n\n\nPhysical Exam:\n\n\nAssessment:\n\n\nPlan:"

/-- `generateClinicalNote` from the server-action source: an empty or
whitespace-only transcript short-circuits to the fixed empty note template
without calling the language model; otherwise the model is called exactly
once (with the API key or through the gateway) and its text is returned.
The language model is an external collaborator, represented by the text
`llmText` it would produce; the second component counts model calls. -/
def generateClinicalNote (transcript patientName visitReason : String)
    (apiKey : Option String) (llmText : String) : String × Nat :=
  if transcript = "" ∨ (jsTrim transcript).length = 0 then (emptyNote, 0)
  else (llmText, 1)

/-! ## Properties of the overlap search -/

lemma isOverlapAt_bounds {aw nw : List String} {j : Nat} (h : isOverlapAt aw nw j = true) :
    1 ≤ j ∧ j ≤ aw.length ∧ j ≤ nw.length := by
  simp only [isOverlapAt, Bool.and_eq_true, decide_eq_true_eq] at h
  exact ⟨h.1.1.1, h.1.1.2, h.1.2⟩

lemma findOverlap_max {aw nw : List String} (b : Nat) :
    ∀ j ≤ b, isOverlapAt aw nw j = true → j ≤ findOverlap aw nw b := by
  induction b with
  | zero => intro j hj _; simpa [findOverlap] using hj
  | succ k ih =>
    intro j hj hov
    unfold findOverlap
    by_cases hk : isOverlapAt aw nw (k + 1) = true
    · simpa [hk] using hj
    · simp only [hk, if_false]
      rcases Nat.lt_or_ge j (k + 1) with h | h
      · exact ih j (by omega) hov
      · have hj' : j = k + 1 := by omega
        rw [hj'] at hov
        exact absurd hov hk

lemma findOverlap_matches {aw nw : List String} (b : Nat) (h : findOverlap aw nw b ≠ 0) :
    isOverlapAt aw nw (findOverlap aw nw b) = true := by
  induction b with
  | zero => simp [findOverlap] at h
  | succ k ih =>
    unfold findOverlap at h ⊢
    by_cases hk : isOverlapAt aw nw (k + 1) = true
    · simpa [hk] using hk
    · simp only [hk, if_false] at h ⊢
      exact ih h

lemma overlapWords_max {aw nw : List String} {j : Nat} (h : isOverlapAt aw nw j = true) :
    j ≤ overlapWords aw nw := by
  have hb := isOverlapAt_bounds h
  exact findOverlap_max (min aw.length nw.length) j (by omega) h

lemma overlapWords_matches {aw nw : List String} (h : overlapWords aw nw ≠ 0) :
    isOverlapAt aw nw (overlapWords aw nw) = true := by
  unfold overlapWords at h ⊢
  exact findOverlap_matches _ h

/-! ## Claim theorems: stitching -/

/-- C1: stitching a segment's transcript onto accumulated text drops the
longest case-insensitive, whitespace-normalized suffix/prefix overlap from
the new transcript and appends the remainder with one separating space; an
empty overlap appends the full transcript; onto empty accumulated text
(segment 0) the transcript is appended verbatim; and the spec's two
concrete examples stitch as stated. -/
theorem stitch_overlap_dedup :
    (∀ new, stitchStrings "" new = new)
    ∧ (∀ aw nw j, isOverlapAt aw nw j = true → j ≤ overlapWords aw nw)
    ∧ (∀ acc new, acc ≠ "" → 0 < overlapWords (wordsOf acc) (wordsOf new) →
        isOverlapAt (wordsOf acc) (wordsOf new) (overlapWords (wordsOf acc) (wordsOf new)) = true
          ∧ stitchStrings acc new
              = acc ++ " " ++ joinWords ((wordsOf new).drop (overlapWords (wordsOf acc) (wordsOf new))))
    ∧ (∀ acc new, acc ≠ "" → overlapWords (wordsOf acc) (wordsOf new) = 0 →
        stitchStrings acc new = acc ++ " " ++ new)
    ∧ stitchStrings "the patient reports a headache" "a headache that started yesterday"
        = "the patient reports a headache that started yesterday"
    ∧ stitchStrings "patient is stable" "vitals within normal limits"
        = "patient is stable vitals within normal limits" := by
  refine ⟨fun new => by simp [stitchStrings], fun aw nw j h => overlapWords_max h,
    fun acc new hacc hpos => ⟨overlapWords_matches (by omega), ?_⟩,
    fun acc new hacc hzero => ?_, by decide, by decide⟩
  · simp only [stitchStrings, if_neg hacc]
    rw [if_neg (by omega)]
  · simp only [stitchStrings, if_neg hacc]
    rw [if_pos hzero]

/-- Witness for C1 at the spec's first example: the two-word overlap
"a headache" is recognized, so the maximality clause applies at j = 2. -/
theorem stitch_overlap_dedup_witness :
    2 ≤ overlapWords (wordsOf "the patient reports a headache")
        (wordsOf "a headache that started yesterday") :=
  stitch_overlap_dedup.2.1 _ _ 2 (by decide)

/-! ## Basic drain lemmas -/

lemma drainLoop_segments : ∀ (fuel : Nat) (led : SessionLedger),
    (drainLoop fuel led).1.segments = led.segments := by
  intro fuel
  induction fuel with
  | zero => intro led; rfl
  | succ f ih =>
    intro led
    unfold drainLoop
    cases h : led.segments.lookup (nextSeq led.cursor) with
    | none => rfl
    | some seg => simpa using ih _

lemma drainLoop_finalTranscript : ∀ (fuel : Nat) (led : SessionLedger),
    (drainLoop fuel led).1.finalTranscript = led.finalTranscript := by
  intro fuel
  induction fuel with
  | zero => intro led; rfl
  | succ f ih =>
    intro led
    unfold drainLoop
    cases h : led.segments.lookup (nextSeq led.cursor) with
    | none => rfl
    | some seg => simpa using ih _

lemma addSegment_segments (led : SessionLedger) (seg : Segment) :
    (addSegment led seg).1.segments = insertSeg led.segments seg := by
  unfold addSegment
  by_cases h : seg.seqNo = nextSeq led.cursor
  · simpa [h] using drainLoop_segments _ _
  · simp [h]

lemma addSegment_finalTranscript (led : SessionLedger) (seg : Segment) :
    (addSegment led seg).1.finalTranscript = led.finalTranscript := by
  unfold addSegment
  by_cases h : seg.seqNo = nextSeq led.cursor
  · simpa [h] using drainLoop_finalTranscript _ _
  · simp [h]

/-! ## Claim theorems: finalization independence -/

/-- C7: one `setFinalTranscript` call records the text as the final
transcript and publishes exactly one "final" event carrying exactly that
text, whatever the ledger's cursor/stitching state; any subsequent
`addSegment` is still accepted (the segment is stored) but leaves the
recorded final transcript unchanged. -/
theorem setFinalTranscript_spec (led : SessionLedger) (text : String) (seg : Segment) :
    (setFinalTranscript led text).2 = [SessionEvent.final text]
    ∧ (setFinalTranscript led text).1.finalTranscript = some text
    ∧ (setFinalTranscript led text).1.stitched = led.stitched
    ∧ (setFinalTranscript led text).1.cursor = led.cursor
    ∧ (setFinalTranscript led text).1.segments = led.segments
    ∧ (addSegment (setFinalTranscript led text).1 seg).1.segments.lookup seg.seqNo = some seg
    ∧ (addSegment (setFinalTranscript led text).1 seg).1.finalTranscript = some text := by
  refine ⟨rfl, rfl, rfl, rfl, rfl, ?_, ?_⟩
  · rw [addSegment_segments]
    simp [insertSeg]
  · rw [addSegment_finalTranscript]
    rfl

/-! ## Claim theorems: transcription client -/

/-- C8: `transcribeAudio` throws a distinct error when credentials are
missing (before any upstream request) and when the upstream service
rejects the request (error carrying the HTTP status); on success it
returns the transcript text; and it performs at most one upstream request
per call — it never retries. -/
theorem transcribeAudio_spec (blobType key : String) (resp : WhisperResponse) :
    transcribeAudio blobType none resp = (Except.error TranscribeError.missingApiKey, [])
    ∧ (resp.ok = false →
        transcribeAudio blobType (some key) resp
          = (Except.error (TranscribeError.apiError resp.status resp.body),
             [{ filename := filenameFor blobType, model := "whisper-1" }]))
    ∧ (resp.ok = true →
        transcribeAudio blobType (some key) resp
          = (Except.ok (resp.textField.getD ""),
             [{ filename := filenameFor blobType, model := "whisper-1" }]))
    ∧ (∀ st b, TranscribeError.missingApiKey ≠ TranscribeError.apiError st b)
    ∧ ∀ apiKey, (transcribeAudio blobType apiKey resp).2.length ≤ 1 := by
  refine ⟨rfl, fun hok => by simp [transcribeAudio, hok],
    fun hok => by simp [transcribeAudio, hok], fun st b => by simp, fun apiKey => ?_⟩
  cases apiKey with
  | none => simp [transcribeAudio]
  | some k =>
    cases hok : resp.ok <;> simp [transcribeAudio, hok]

/-- Witness for C8: a rejected upstream request (status 429) yields the
status-carrying error after exactly one request. -/
theorem transcribeAudio_spec_witness :
    transcribeAudio "audio/wav" (some "k")
        { ok := false, status := 429, body := "rate limited", textField := none }
      = (Except.error (TranscribeError.apiError 429 "rate limited"),
         [{ filename := filenameFor "audio/wav", model := "whisper-1" }]) :=
  (transcribeAudio_spec "audio/wav" "k"
    { ok := false, status := 429, body := "rate limited", textField := none }).2.1 rfl

/-- C9: a successful (ok) response whose JSON body has no usable `text`
field makes `transcribeAudio` return the empty transcript rather than fail
(`result.text || ""`). -/
theorem transcribeAudio_missing_text (blobType key : String) (resp : WhisperResponse)
    (hok : resp.ok = true) (htext : resp.textField = none) :
    (transcribeAudio blobType (some key) resp).1 = Except.ok "" := by
  simp [transcribeAudio, hok, htext]

/-- Witness for C9: an ok response with an absent `text` field returns
the empty string. -/
theorem transcribeAudio_missing_text_witness :
    (transcribeAudio "audio/webm" (some "k")
        { ok := true, status := 200, body := "", textField := none }).1 = Except.ok "" :=
  transcribeAudio_missing_text "audio/webm" "k"
    { ok := true, status := 200, body := "", textField := none } rfl rfl

/-! ## Claim theorems: clinical note generation -/

/-- C10: an empty or whitespace-only transcript makes
`generateClinicalNote` return the fixed empty note template — the six
section headers separated by blank lines and nothing else — without any
language-model call. -/
theorem generateClinicalNote_empty (t pn vr llm : String) (key : Option String)
    (h : jsTrim t = "") :
    generateClinicalNote t pn vr key llm = (emptyNote, 0)
    ∧ emptyNote = String.intercalate "\n\n\n"
        ["Chief Complaint:", "HPI:", "ROS:", "Physical Exam:", "Assessment:", "Plan:"] := by
  constructor
  · have hlen : (jsTrim t).length = 0 := by rw [h]; rfl
    simp [generateClinicalNote, hlen]
  · decide

/-- Witness for C10 at a whitespace-only transcript. -/
theorem generateClinicalNote_empty_witness :
    generateClinicalNote " \t " "Jo" "checkup" none "model output" = (emptyNote, 0)
    ∧ emptyNote = String.intercalate "\n\n\n"
        ["Chief Complaint:", "HPI:", "ROS:", "Physical Exam:", "Assessment:", "Plan:"] :=
  generateClinicalNote_empty " \t " "Jo" "checkup" "model output" none (by decide)

/-! ## Segmenter lemmas -/

lemma drainGo_spec (segLen hop : Nat) (hseg : 0 < segLen) (hhop : 0 < hop) :
    ∀ (fuel : Nat) (buf : List Int), buf.length < fuel →
      ((drainGo segLen hop fuel buf).1.length
          = if segLen ≤ buf.length then (buf.length - segLen) / hop + 1 else 0)
      ∧ (∀ w ∈ (drainGo segLen hop fuel buf).1, w.length = segLen)
      ∧ (drainGo segLen hop fuel buf).2
          = buf.drop (hop * (drainGo segLen hop fuel buf).1.length)
      ∧ (drainGo segLen hop fuel buf).2.length < segLen := by
  intro fuel
  induction fuel with
  | zero => intro buf h; omega
  | succ f ih =>
    intro buf hb
    by_cases hM : segLen ≤ buf.length
    · have hb' : (buf.drop hop).length < f := by
        rw [List.length_drop]; omega
      obtain ⟨ih1, ih2, ih3, ih4⟩ := ih (buf.drop hop) hb'
      have hgo : drainGo segLen hop (f + 1) buf
          = ((buf.take segLen) :: (drainGo segLen hop f (buf.drop hop)).1,
             (drainGo segLen hop f (buf.drop hop)).2) := by
        simp [drainGo, hM]
      rw [List.length_drop] at ih1
      refine ⟨?_, ?_, ?_, ?_⟩
      · rw [hgo]
        simp only [List.length_cons, ih1, if_pos hM]
        by_cases hM' : segLen ≤ buf.length - hop
        · rw [if_pos hM']
          have h1 : hop ≤ buf.length - segLen := by omega
          rw [Nat.div_eq_sub_div hhop h1]
          have h2 : buf.length - segLen - hop = buf.length - hop - segLen := by omega
          rw [h2]
        · rw [if_neg hM']
          have h1 : buf.length - segLen < hop := by omega
          rw [Nat.div_eq_of_lt h1]
      · rw [hgo]
        intro w hw
        rcases List.mem_cons.mp hw with hw | hw
        · rw [hw, List.length_take]; omega
        · exact ih2 w hw
      · rw [hgo]
        simp only [List.length_cons]
        rw [ih3, List.drop_drop]
        congr 1
        ring
      · rw [hgo]
        exact ih4
    · have hgo : drainGo segLen hop (f + 1) buf = ([], buf) := by
        simp [drainGo, hM]
      rw [hgo]
      exact ⟨by simp [hM], by simp, by simp, by show buf.length < segLen; omega⟩

lemma drainGo_fuel_indep (segLen hop : Nat) (hseg : 0 < segLen) (hhop : 0 < hop) :
    ∀ (f₁ : Nat) (buf : List Int), buf.length < f₁ →
      ∀ f₂, buf.length < f₂ → drainGo segLen hop f₁ buf = drainGo segLen hop f₂ buf := by
  intro f₁
  induction f₁ with
  | zero => intro buf h; omega
  | succ f ih =>
    intro buf hb f₂ h₂
    cases f₂ with
    | zero => omega
    | succ g =>
      by_cases hM : segLen ≤ buf.length
      · have hb' : (buf.drop hop).length < f := by rw [List.length_drop]; omega
        have hg' : (buf.drop hop).length < g := by rw [List.length_drop]; omega
        simp only [drainGo, if_pos hM]
        rw [ih (buf.drop hop) hb' g hg']
      · simp only [drainGo, if_neg hM]

/-! ## Claim theorems: segmenter -/

/-- C6: with `overlap < segLen` the drain loop terminates — its result is
already stable at fuel `buf.length + 1` and agrees at every larger fuel —
while `overlap ≥ segLen` (non-positive hop) is rejected fast with a
configuration error before any audio is processed. -/
theorem drainSegments_termination (segLen overlap : Nat) (buf : List Int) :
    (overlap < segLen →
       ∃ out, drainSegments segLen overlap buf = Except.ok out
         ∧ ∀ fuel, buf.length < fuel → drainGo segLen (segLen - overlap) fuel buf = out)
    ∧ (segLen ≤ overlap →
       drainSegments segLen overlap buf
         = Except.error "overlap must be smaller than segment length") := by
  constructor
  · intro hlt
    refine ⟨drainGo segLen (segLen - overlap) (buf.length + 1) buf, ?_, ?_⟩
    · have hnot : ¬ segLen ≤ overlap := by omega
      simp [drainSegments, hnot]
    · intro fuel hfuel
      exact drainGo_fuel_indep segLen (segLen - overlap) (by omega) (by omega) fuel buf
        hfuel (buf.length + 1) (by omega)
  · intro hge
    simp [drainSegments, hge]

/-- Witness for C6 at segLen 2, overlap 1 (terminating drain) and
segLen 2, overlap 2 (rejected configuration). -/
theorem drainSegments_termination_witness :
    (∃ out, drainSegments 2 1 [5, 6, 7] = Except.ok out
       ∧ ∀ fuel, ([5, 6, 7] : List Int).length < fuel → drainGo 2 1 fuel [5, 6, 7] = out)
    ∧ drainSegments 2 2 [5, 6, 7]
        = Except.error "overlap must be smaller than segment length" :=
  ⟨(drainSegments_termination 2 1 [5, 6, 7]).1 (by decide),
   (drainSegments_termination 2 2 [5, 6, 7]).2 (by decide)⟩

/-- C5 (amended): unconditionally — for every configuration the drain
accepts, rounded or not — every emitted segment contains exactly the
configured number of samples (never a shorter, partial window) and the
final partial remainder (shorter than one segment) is left in the buffer
at the hop boundary rather than emitted; and when the millisecond→sample
conversions are exact (`1000 ∣ L·R` and `1000 ∣ O·R`) the drain emits
exactly `(N·1000 − L)/(L − O) + 1` segments of `round(L/1000·R)` samples
for `N` seconds at rate `R`. -/
theorem drainSegments_coverage :
    (∀ (segLen overlap : Nat) (buf : List Int) (windows : List (List Int)) (rest : List Int),
        drainSegments segLen overlap buf = Except.ok (windows, rest) →
        (∀ w ∈ windows, w.length = segLen)
        ∧ rest = buf.drop ((segLen - overlap) * windows.length)
        ∧ rest.length < segLen)
    ∧ ∀ (N R L O : Nat), 0 < R → O < L → L ≤ N * 1000 →
        1000 ∣ L * R → 1000 ∣ O * R →
        ∀ (buf : List Int), buf.length = N * R →
        ∃ windows rest,
          drainSegments (msToSamples L R) (msToSamples O R) buf = Except.ok (windows, rest)
          ∧ windows.length = (N * 1000 - L) / (L - O) + 1 := by
  constructor
  · intro segLen overlap buf windows rest hok
    unfold drainSegments at hok
    by_cases hcfg : segLen ≤ overlap
    · rw [if_pos hcfg] at hok
      exact absurd hok (by simp)
    · rw [if_neg hcfg] at hok
      have heq : drainGo segLen (segLen - overlap) (buf.length + 1) buf = (windows, rest) :=
        Except.ok.inj hok
      obtain ⟨_, h2, h3, h4⟩ := drainGo_spec segLen (segLen - overlap) (by omega) (by omega)
        (buf.length + 1) buf (by omega)
      rw [heq] at h2 h3 h4
      exact ⟨h2, h3, h4⟩
  · intro N R L O hR hO hNL hLd hOd buf hbuf
    obtain ⟨qa, hqa⟩ := hLd
    obtain ⟨qb, hqb⟩ := hOd
    have hsegS : msToSamples L R = qa := by
      unfold msToSamples
      have h2 : 2 * L * R = 2 * (L * R) := by ring
      rw [h2, hqa]
      omega
    have hovS : msToSamples O R = qb := by
      unfold msToSamples
      have h2 : 2 * O * R = 2 * (O * R) := by ring
      rw [h2, hqb]
      omega
    have hab : qb < qa := by
      have : O * R < L * R := mul_lt_mul_of_pos_right hO hR
      omega
    have hqa0 : 0 < qa := by omega
    have hbufge : qa ≤ buf.length := by
      have : L * R ≤ N * 1000 * R := Nat.mul_le_mul hNL (le_refl R)
      have h2 : N * 1000 * R = 1000 * (N * R) := by ring
      rw [hbuf]
      omega
    obtain ⟨h1, _, _, _⟩ := drainGo_spec qa (qa - qb) hqa0 (by omega)
      (buf.length + 1) buf (by omega)
    have hcount : (drainGo qa (qa - qb) (buf.length + 1) buf).1.length
        = (N * 1000 - L) / (L - O) + 1 := by
      rw [h1, if_pos hbufge, hbuf]
      congr 1
      have e1 : (N * 1000 - L) * R = (N * R - qa) * 1000 := by
        have a1 : (N * 1000 - L) * R = N * 1000 * R - L * R := Nat.sub_mul _ _ _
        have a2 : (N * R - qa) * 1000 = N * R * 1000 - qa * 1000 := Nat.sub_mul _ _ _
        have a3 : N * 1000 * R = N * R * 1000 := by ring
        omega
      have e2 : (L - O) * R = (qa - qb) * 1000 := by
        have a1 : (L - O) * R = L * R - O * R := Nat.sub_mul _ _ _
        have a2 : (qa - qb) * 1000 = qa * 1000 - qb * 1000 := Nat.sub_mul _ _ _
        omega
      calc (N * R - qa) / (qa - qb)
          = (N * R - qa) * 1000 / ((qa - qb) * 1000) :=
            (Nat.mul_div_mul_right _ _ (by norm_num)).symm
        _ = (N * 1000 - L) * R / ((L - O) * R) := by rw [e1, e2]
        _ = (N * 1000 - L) / (L - O) := Nat.mul_div_mul_right _ _ hR
    refine ⟨(drainGo qa (qa - qb) (buf.length + 1) buf).1,
            (drainGo qa (qa - qb) (buf.length + 1) buf).2, ?_, hcount⟩
    rw [hsegS, hovS]
    have hnot : ¬ qa ≤ qb := by omega
    simp [drainSegments, hnot]

/-- C5 counterexample: one second at 3 Hz with 500 ms segments and 100 ms
overlap (hypotheses of the claim hold: O < L, L ≤ N·1000, buffer holds
N·R samples).  Rounding makes the overlap 0 samples and the hop 2 samples,
so only one window is emitted, while the claim's millisecond formula
`floor((N·1000 − L)/(L − O)) + 1` demands two. -/
theorem drainSegments_coverage_counterexample :
    drainSegments (msToSamples 500 3) (msToSamples 100 3) [5, 6, 7]
        = Except.ok ([[5, 6]], [7])
    ∧ ([[5, 6]] : List (List Int)).length ≠ (1 * 1000 - 500) / (500 - 100) + 1
    ∧ 100 < 500 ∧ 500 ≤ 1 * 1000 ∧ ([5, 6, 7] : List Int).length = 1 * 3 := by
  refine ⟨rfl, by decide, by decide, by decide, by decide⟩

/-- Witness for C5: the unconditional clause exercised at the rounded
configuration of the counterexample (500 ms segments, 100 ms overlap,
3 Hz — full windows and retained remainder even there), and the exact
count clause at one second of 2 Hz audio with 500 ms segments and no
overlap. -/
theorem drainSegments_coverage_witness :
    ((∀ w ∈ ([[5, 6]] : List (List Int)), w.length = msToSamples 500 3)
      ∧ ([7] : List Int) = ([5, 6, 7] : List Int).drop
          ((msToSamples 500 3 - msToSamples 100 3) * ([[5, 6]] : List (List Int)).length)
      ∧ ([7] : List Int).length < msToSamples 500 3)
    ∧ ∃ windows rest,
        drainSegments (msToSamples 500 2) (msToSamples 0 2) [5, 6] = Except.ok (windows, rest)
        ∧ windows.length = (1 * 1000 - 500) / (500 - 0) + 1 :=
  ⟨drainSegments_coverage.1 (msToSamples 500 3) (msToSamples 100 3) [5, 6, 7] [[5, 6]] [7] rfl,
   drainSegments_coverage.2 1 2 500 0 (by decide) (by decide) (by decide)
     ⟨1, rfl⟩ ⟨0, rfl⟩ [5, 6] rfl⟩

/-! ## WAV codec lemmas -/

lemma wavData_length (s : List Int) :
    ((s.map (fun v => i16le (clamp16 v))).flatten).length = 2 * s.length := by
  induction s with
  | nil => rfl
  | cons a t ih =>
    simp only [List.map_cons, List.flatten_cons, List.length_append, ih, List.length_cons]
    have h2 : (i16le (clamp16 a)).length = 2 := rfl
    omega

/-! ## Claim theorems: WAV round trip -/

/-- C4: for every sample sequence and every (32-bit representable) sample
rate, parsing the encoded container succeeds and recovers the sample rate,
one channel, 16-bit depth, and a duration within 1 ms of
`samples/rate·1000`; the container is exactly `44 + 2·samples` bytes. -/
theorem wav_roundtrip (s : List Int) (sr : Nat) (h1 : 0 < sr) (h2 : sr < 4294967296)
    (h3 : 2 * s.length < 4294967296) :
    (createWavBlob s sr).length = 44 + 2 * s.length
    ∧ ∃ q, parseWavHeader (createWavBlob s sr)
          = some { sampleRate := sr, numChannels := 1, bitDepth := 16, durationMs := q }
        ∧ |q - (s.length : ℚ) / (sr : ℚ) * 1000| ≤ 1 := by
  have hsr : sr % 256 + 256 * (sr / 256 % 256) + 65536 * (sr / 65536 % 256)
      + 16777216 * (sr / 16777216 % 256) = sr := by omega
  have hds : 2 * s.length % 256 + 256 * (2 * s.length / 256 % 256)
      + 65536 * (2 * s.length / 65536 % 256)
      + 16777216 * (2 * s.length / 16777216 % 256) = 2 * s.length := by omega
  constructor
  · simp only [createWavBlob, riffMark, waveMark, fmtMark, dataMark, u16le, u32le,
      List.cons_append, List.nil_append, List.length_append, List.length_cons,
      wavData_length]
    omega
  · refine ⟨(2 * s.length : ℚ) / ((1 : ℚ) * ((16 : ℚ) / 8)) / (sr : ℚ) * 1000, ?_, ?_⟩
    · simp only [createWavBlob, riffMark, waveMark, fmtMark, dataMark, u16le, u32le,
        List.cons_append, List.nil_append]
      rw [parseWavHeader]
      rw [if_pos (by simp [riffMark, waveMark, fmtMark])]
      rw [hsr, hds]
      norm_num
    · have hq : (2 * s.length : ℚ) / ((1 : ℚ) * ((16 : ℚ) / 8)) / (sr : ℚ) * 1000
          = (s.length : ℚ) / (sr : ℚ) * 1000 := by
        have hsr' : (sr : ℚ) ≠ 0 := by
          exact_mod_cast Nat.pos_iff_ne_zero.mp h1
        field_simp
        ring
      rw [hq, sub_self, abs_zero]
      norm_num

/-- Witness for C4 at a two-sample, 2 Hz container: the header parses back
to 2 Hz mono 16-bit with a 1000 ms duration and the container is 48
bytes. -/
theorem wav_roundtrip_witness :
    (createWavBlob [0, 100] 2).length = 44 + 2 * ([0, 100] : List Int).length
    ∧ ∃ q, parseWavHeader (createWavBlob [0, 100] 2)
          = some { sampleRate := 2, numChannels := 1, bitDepth := 16, durationMs := q }
        ∧ |q - (([0, 100] : List Int).length : ℚ) / ((2 : Nat) : ℚ) * 1000| ≤ 1 :=
  wav_roundtrip [0, 100] 2 (by decide) (by decide) (by decide)

/-! ## Ledger map lemmas -/

lemma lookup_filter_ne (m : SegMap) (x k : Nat) (hk : k ≠ x) :
    (m.filter (fun p => decide (p.1 ≠ x))).lookup k = m.lookup k := by
  induction m with
  | nil => rfl
  | cons p t ih =>
    by_cases hp : p.1 = x
    · rw [List.filter_cons, if_neg (by simp [hp]), ih]
      cases p with
      | mk a b =>
        simp only at hp
        rw [List.lookup_cons]
        have : (k == a) = false := by simp [hp ▸ hk]
        rw [this]
    · rw [List.filter_cons, if_pos (by simp [hp])]
      cases p with
      | mk a b =>
        rw [List.lookup_cons, List.lookup_cons]
        cases hka : k == a with
        | true => rfl
        | false => exact ih

lemma lookup_insertSeg (m : SegMap) (seg : Segment) (k : Nat) :
    (insertSeg m seg).lookup k = if k = seg.seqNo then some seg else m.lookup k := by
  unfold insertSeg
  by_cases h : k = seg.seqNo
  · rw [if_pos h, List.lookup_cons]
    have : (k == seg.seqNo) = true := by simp [h]
    rw [this]
  · rw [if_neg h, List.lookup_cons]
    have : (k == seg.seqNo) = false := by simp [h]
    rw [this]
    exact lookup_filter_ne m seg.seqNo k h

lemma transcriptAt_insertSeg (m : SegMap) (seg : Segment) (i : Nat) :
    transcriptAt (insertSeg m seg) i
      = if i = seg.seqNo then seg.transcript else transcriptAt m i := by
  unfold transcriptAt
  rw [lookup_insertSeg]
  by_cases h : i = seg.seqNo <;> simp [h]

lemma stitchUpTo_congr {m m' : SegMap} (n : Nat)
    (h : ∀ i < n, transcriptAt m i = transcriptAt m' i) :
    stitchUpTo m n = stitchUpTo m' n := by
  induction n with
  | zero => rfl
  | succ j ih =>
    unfold stitchUpTo
    rw [ih (fun i hi => h i (by omega)), h j (by omega)]

/-! ## Drain-loop invariant lemmas -/

lemma Inv_drain_step {led : SessionLedger} {seg : Segment} (hInv : Inv led)
    (hlook : led.segments.lookup (nextSeq led.cursor) = some seg) :
    Inv { led with cursor := some (nextSeq led.cursor),
                   stitched := stitchStrings led.stitched seg.transcript } := by
  obtain ⟨h1, h2⟩ := hInv
  constructor
  · show stitchStrings led.stitched seg.transcript
      = stitchUpTo led.segments (nextSeq (some (nextSeq led.cursor)))
    have hn : nextSeq (some (nextSeq led.cursor)) = nextSeq led.cursor + 1 := rfl
    rw [hn]
    show stitchStrings led.stitched seg.transcript
      = stitchStrings (stitchUpTo led.segments (nextSeq led.cursor))
          (transcriptAt led.segments (nextSeq led.cursor))
    rw [← h1]
    unfold transcriptAt
    rw [hlook]
  · intro i hi
    have hn : nextSeq (some (nextSeq led.cursor)) = nextSeq led.cursor + 1 := rfl
    rw [hn] at hi
    show (led.segments.lookup i).isSome = true
    rcases Nat.lt_or_ge i (nextSeq led.cursor) with h | h
    · exact h2 i h
    · have : i = nextSeq led.cursor := by omega
      rw [this, hlook]
      rfl

lemma drainLoop_inv : ∀ (fuel : Nat) (led : SessionLedger),
    Inv led → Inv (drainLoop fuel led).1 := by
  intro fuel
  induction fuel with
  | zero => intro led h; exact h
  | succ f ih =>
    intro led hInv
    cases hlook : led.segments.lookup (nextSeq led.cursor) with
    | none => simpa [drainLoop, hlook] using hInv
    | some seg =>
      have hstep := Inv_drain_step hInv hlook
      simpa [drainLoop, hlook] using ih _ hstep

lemma drainLoop_run : ∀ (fuel : Nat) (led : SessionLedger), Inv led →
    ∃ n, nextSeq (drainLoop fuel led).1.cursor = nextSeq led.cursor + n
      ∧ (drainLoop fuel led).2 = eventsFrom led.segments (nextSeq led.cursor) n := by
  intro fuel
  induction fuel with
  | zero => intro led _; exact ⟨0, rfl, rfl⟩
  | succ f ih =>
    intro led hInv
    cases hlook : led.segments.lookup (nextSeq led.cursor) with
    | none =>
      refine ⟨0, ?_, ?_⟩ <;> simp [drainLoop, hlook, eventsFrom]
    | some seg =>
      have hstep := Inv_drain_step hInv hlook
      obtain ⟨n, hn1, hn2⟩ := ih _ hstep
      have hst : stitchStrings led.stitched seg.transcript
          = stitchUpTo led.segments (nextSeq led.cursor + 1) := by
        show _ = stitchStrings (stitchUpTo led.segments (nextSeq led.cursor))
            (transcriptAt led.segments (nextSeq led.cursor))
        rw [← hInv.1]
        unfold transcriptAt
        rw [hlook]
      have hseg2 : segAt led.segments (nextSeq led.cursor) = seg := by
        unfold segAt
        rw [hlook]
        rfl
      refine ⟨n + 1, ?_, ?_⟩
      · simp only [drainLoop, hlook]
        rw [hn1]
        show nextSeq led.cursor + 1 + n = nextSeq led.cursor + (n + 1)
        omega
      · simp only [drainLoop, hlook]
        rw [hn2, hst, ← hseg2]
        rfl

lemma countFrom_mono (m : SegMap) (n : Nat) : countFrom m (n + 1) ≤ countFrom m n := by
  induction m with
  | nil => exact le_refl _
  | cons p t ih =>
    unfold countFrom at ih ⊢
    by_cases h2 : n + 1 ≤ p.1
    · have h1 : n ≤ p.1 := by omega
      rw [List.filter_cons, List.filter_cons, if_pos (by simpa using h2),
        if_pos (by simpa using h1)]
      simpa using ih
    · by_cases h1 : n ≤ p.1
      · rw [List.filter_cons, List.filter_cons, if_neg (by simpa using h2),
          if_pos (by simpa using h1)]
        simp
        omega
      · rw [List.filter_cons, List.filter_cons, if_neg (by simpa using h2),
          if_neg (by simpa using h1)]
        exact ih

lemma countFrom_lt {m : SegMap} {n : Nat} (h : (m.lookup n).isSome = true) :
    countFrom m (n + 1) < countFrom m n := by
  induction m with
  | nil => simp [List.lookup] at h
  | cons p t ih =>
    cases p with
    | mk a b =>
      by_cases ha : n = a
      · have hmono := countFrom_mono t n
        unfold countFrom at hmono ⊢
        rw [List.filter_cons, List.filter_cons, if_neg (by simp; omega),
          if_pos (by simp [ha])]
        simp only [List.length_cons]
        omega
      · have h' : (t.lookup n).isSome = true := by
          rw [List.lookup_cons] at h
          have : (n == a) = false := by simp [ha]
          rwa [this] at h
        have hlt := ih h'
        unfold countFrom at hlt ⊢
        by_cases h1 : n ≤ a
        · have h2 : n + 1 ≤ a := by omega
          rw [List.filter_cons, List.filter_cons, if_pos (by simpa using h2),
            if_pos (by simpa using h1)]
          simp only [List.length_cons]
          omega
        · have h2 : ¬ n + 1 ≤ a := by omega
          rw [List.filter_cons, List.filter_cons, if_neg (by simpa using h2),
            if_neg (by simpa using h1)]
          exact hlt

lemma countFrom_le_length (m : SegMap) (n : Nat) : countFrom m n ≤ m.length :=
  List.length_filter_le _ _

lemma drainLoop_drained : ∀ (fuel : Nat) (led : SessionLedger),
    countFrom led.segments (nextSeq led.cursor) < fuel →
    Drained (drainLoop fuel led).1 := by
  intro fuel
  induction fuel with
  | zero => intro led h; omega
  | succ f ih =>
    intro led hc
    cases hlook : led.segments.lookup (nextSeq led.cursor) with
    | none =>
      unfold Drained
      simp only [drainLoop, hlook]
    | some seg =>
      have hc' : countFrom led.segments (nextSeq led.cursor + 1)
          < countFrom led.segments (nextSeq led.cursor) :=
        countFrom_lt (by rw [hlook]; rfl)
      unfold Drained
      simp only [drainLoop, hlook]
      exact ih ⟨led.segments, some (nextSeq led.cursor), stitchStrings led.stitched seg.transcript, led.finalTranscript⟩ (by show countFrom led.segments (nextSeq led.cursor + 1) < f; omega)

/-! ## addSegment lemmas -/

lemma Inv_insert {led : SessionLedger} {seg : Segment} (hInv : Inv led)
    (hdup : nextSeq led.cursor ≤ seg.seqNo
        ∨ transcriptAt led.segments seg.seqNo = seg.transcript) :
    Inv { led with segments := insertSeg led.segments seg } := by
  obtain ⟨h1, h2⟩ := hInv
  constructor
  · show led.stitched = stitchUpTo (insertSeg led.segments seg) (nextSeq led.cursor)
    rw [h1]
    apply stitchUpTo_congr
    intro i hi
    rw [transcriptAt_insertSeg]
    by_cases hieq : i = seg.seqNo
    · rw [if_pos hieq]
      rcases hdup with hge | htr
      · exfalso; omega
      · rw [hieq]; exact htr
    · rw [if_neg hieq]
  · intro i hi
    show ((insertSeg led.segments seg).lookup i).isSome = true
    rw [lookup_insertSeg]
    by_cases hieq : i = seg.seqNo
    · rw [if_pos hieq]; rfl
    · rw [if_neg hieq]; exact h2 i hi

/-! ## Claim theorems: session store state machine -/

/-- C2 (amended): `addSegment` always stores the segment; a seqNo other
than the next stitchable one (a gap or a duplicate at or below the cursor)
leaves cursor, stitched text and event stream untouched; the published
events are always the full drain from the old next seqNo — consecutive
seqNos in increasing order, one event per stitched segment, stopping at a
gap; and, provided a duplicate below the cursor never changes a stitched
transcript, the spec invariant (stitched text = deterministic stitch of
segments 0..cursor, ledger drained) is preserved. -/
theorem addSegment_contract (led : SessionLedger) (seg : Segment) (hInv : Inv led)
    (hD : Drained led)
    (hdup : nextSeq led.cursor ≤ seg.seqNo
        ∨ transcriptAt led.segments seg.seqNo = seg.transcript) :
    (addSegment led seg).1.segments = insertSeg led.segments seg
    ∧ (addSegment led seg).1.segments.lookup seg.seqNo = some seg
    ∧ (seg.seqNo ≠ nextSeq led.cursor →
        (addSegment led seg).1.cursor = led.cursor
        ∧ (addSegment led seg).1.stitched = led.stitched
        ∧ (addSegment led seg).2 = [])
    ∧ (∃ n, nextSeq (addSegment led seg).1.cursor = nextSeq led.cursor + n
        ∧ (addSegment led seg).2
            = eventsFrom (insertSeg led.segments seg) (nextSeq led.cursor) n)
    ∧ Inv (addSegment led seg).1
    ∧ Drained (addSegment led seg).1 := by
  have hInv1 : Inv { led with segments := insertSeg led.segments seg } :=
    Inv_insert ⟨hInv.1, hInv.2⟩ hdup
  refine ⟨addSegment_segments led seg, ?_, ?_, ?_, ?_, ?_⟩
  · rw [addSegment_segments, lookup_insertSeg, if_pos rfl]
  · intro hne
    unfold addSegment
    rw [if_neg hne]
    exact ⟨rfl, rfl, rfl⟩
  · by_cases heq : seg.seqNo = nextSeq led.cursor
    · simp only [addSegment]
      rw [if_pos heq]
      exact drainLoop_run _ _ hInv1
    · simp only [addSegment]
      rw [if_neg heq]
      exact ⟨0, rfl, rfl⟩
  · by_cases heq : seg.seqNo = nextSeq led.cursor
    · simp only [addSegment]
      rw [if_pos heq]
      exact drainLoop_inv _ _ hInv1
    · simp only [addSegment]
      rw [if_neg heq]
      exact hInv1
  · by_cases heq : seg.seqNo = nextSeq led.cursor
    · simp only [addSegment]
      rw [if_pos heq]
      exact drainLoop_drained _ _ (Nat.lt_succ_of_le (countFrom_le_length _ _))
    · simp only [addSegment]
      rw [if_neg heq]
      show (insertSeg led.segments seg).lookup (nextSeq led.cursor) = none
      rw [lookup_insertSeg, if_neg (fun hc => heq hc.symm)]
      exact hD

/-- C2 counterexample: a duplicate `addSegment` at seqNo 0 with a
different transcript is stored (most recent value is authoritative) but
does not re-stitch, so afterwards the accumulated text "a" differs from
the deterministic stitch "b" of segments 0..cursor — the claim's
unconditional invariant fails. -/
theorem addSegment_invariant_counterexample :
    (addSegment (addSegment emptyLedger
        { seqNo := 0, startMs := 0, endMs := 0, durationMs := 0, overlapMs := 0,
          transcript := "a" }).1
        { seqNo := 0, startMs := 0, endMs := 0, durationMs := 0, overlapMs := 0,
          transcript := "b" }).1.stitched = "a"
    ∧ stitchUpTo (addSegment (addSegment emptyLedger
        { seqNo := 0, startMs := 0, endMs := 0, durationMs := 0, overlapMs := 0,
          transcript := "a" }).1
        { seqNo := 0, startMs := 0, endMs := 0, durationMs := 0, overlapMs := 0,
          transcript := "b" }).1.segments
        (nextSeq (addSegment (addSegment emptyLedger
        { seqNo := 0, startMs := 0, endMs := 0, durationMs := 0, overlapMs := 0,
          transcript := "a" }).1
        { seqNo := 0, startMs := 0, endMs := 0, durationMs := 0, overlapMs := 0,
          transcript := "b" }).1.cursor) = "b"
    ∧ ¬ Inv (addSegment (addSegment emptyLedger
        { seqNo := 0, startMs := 0, endMs := 0, durationMs := 0, overlapMs := 0,
          transcript := "a" }).1
        { seqNo := 0, startMs := 0, endMs := 0, durationMs := 0, overlapMs := 0,
          transcript := "b" }).1 := by
  refine ⟨by decide, by decide, ?_⟩
  intro h
  exact absurd (h.1) (by decide)

/-- Witness for C2 (amended) at the first segment added to a fresh
session: the invariant and drained-ness are established. -/
theorem addSegment_contract_witness :
    Inv (addSegment emptyLedger
      { seqNo := 0, startMs := 0, endMs := 10000, durationMs := 10000, overlapMs := 250,
        transcript := "First segment." }).1
    ∧ Drained (addSegment emptyLedger
      { seqNo := 0, startMs := 0, endMs := 10000, durationMs := 10000, overlapMs := 250,
        transcript := "First segment." }).1 :=
  ⟨(addSegment_contract emptyLedger _ (by decide) rfl (Or.inl (by decide))).2.2.2.2.1,
   (addSegment_contract emptyLedger _ (by decide) rfl (Or.inl (by decide))).2.2.2.2.2⟩

/-! ## Order independence machinery -/

lemma GoodState_congr {led : SessionLedger} {P Q : Nat → Prop}
    (h : GoodState led P) (hiff : ∀ i, P i ↔ Q i) : GoodState led Q :=
  ⟨h.1, h.2.1, fun i => (h.2.2 i).trans (hiff i)⟩

lemma addSegment_good {led : SessionLedger} {P : Nat → Prop} {seg : Segment}
    (h : GoodState led P) (hnew : ¬ P seg.seqNo) :
    GoodState (addSegment led seg).1 (fun i => i = seg.seqNo ∨ P i) := by
  obtain ⟨hInv, hD, hKeys⟩ := h
  have hge : nextSeq led.cursor ≤ seg.seqNo := by
    by_contra hlt
    push_neg at hlt
    exact hnew ((hKeys seg.seqNo).mp (hInv.2 seg.seqNo hlt))
  obtain ⟨hseg, hlook, _, _, hInv', hD'⟩ :=
    addSegment_contract led seg hInv hD (Or.inl hge)
  refine ⟨hInv', hD', fun i => ?_⟩
  rw [hseg, lookup_insertSeg]
  by_cases hi : i = seg.seqNo
  · simp [hi]
  · rw [if_neg hi, hKeys i]
    simp [hi]

lemma applyAll_cons (led : SessionLedger) (s : Segment) (rest : List Segment) :
    applyAll led (s :: rest) = applyAll (addSegment led s).1 rest := rfl

lemma applyAll_good : ∀ (segs : List Segment) (led : SessionLedger) (P : Nat → Prop),
    GoodState led P → (segs.map Segment.seqNo).Nodup →
    (∀ s ∈ segs, ¬ P s.seqNo) →
    GoodState (applyAll led segs) (fun i => i ∈ segs.map Segment.seqNo ∨ P i) := by
  intro segs
  induction segs with
  | nil =>
    intro led P h _ _
    exact GoodState_congr h (by intro i; simp)
  | cons s rest ih =>
    intro led P h hnodup hfresh
    rw [List.map_cons, List.nodup_cons] at hnodup
    have hstep := addSegment_good h (hfresh s (List.mem_cons_self s rest))
    have hfresh' : ∀ t ∈ rest, ¬ (t.seqNo = s.seqNo ∨ P t.seqNo) := by
      intro t ht hor
      rcases hor with heq | hP
      · apply hnodup.1
        rw [← heq]
        exact List.mem_map_of_mem _ ht
      · exact hfresh t (List.mem_cons_of_mem s ht) hP
    have hrec := ih (addSegment led s).1 _ hstep hnodup.2 hfresh'
    rw [applyAll_cons]
    refine GoodState_congr hrec ?_
    intro i
    simp only [List.map_cons, List.mem_cons]
    tauto

lemma applyAll_lookup_untouched : ∀ (segs : List Segment) (led : SessionLedger) (i : Nat),
    (∀ s ∈ segs, s.seqNo ≠ i) →
    (applyAll led segs).segments.lookup i = led.segments.lookup i := by
  intro segs
  induction segs with
  | nil => intro led i _; rfl
  | cons s rest ih =>
    intro led i hne
    rw [applyAll_cons, ih _ i (fun t ht => hne t (List.mem_cons_of_mem s ht)),
      addSegment_segments, lookup_insertSeg,
      if_neg (fun hc => hne s (List.mem_cons_self s rest) hc.symm)]

lemma applyAll_lookup_mem : ∀ (segs : List Segment) (led : SessionLedger) (s : Segment),
    s ∈ segs → (segs.map Segment.seqNo).Nodup →
    (applyAll led segs).segments.lookup s.seqNo = some s := by
  intro segs
  induction segs with
  | nil => intro led s hs _; exact absurd hs (List.not_mem_nil s)
  | cons t rest ih =>
    intro led s hs hnodup
    rw [List.map_cons, List.nodup_cons] at hnodup
    rcases List.mem_cons.mp hs with heq | hmem
    · subst heq
      have hnot : ∀ u ∈ rest, u.seqNo ≠ s.seqNo := by
        intro u hu hc
        apply hnodup.1
        rw [← hc]
        exact List.mem_map_of_mem _ hu
      rw [applyAll_cons, applyAll_lookup_untouched rest _ s.seqNo hnot,
        addSegment_segments, lookup_insertSeg, if_pos rfl]
    · rw [applyAll_cons]
      exact ih _ s hmem hnodup.2

lemma applyAll_perm (k : Nat) (f : Nat → Segment) (hf : ∀ i, (f i).seqNo = i)
    (order : List Nat) (hperm : order.Perm (List.range (k + 1))) :
    (applyAll emptyLedger (order.map f)).stitched = stitchOf f (k + 1) := by
  have h0 : GoodState emptyLedger (fun _ => False) := by
    refine ⟨⟨rfl, ?_⟩, rfl, ?_⟩
    · intro i hi
      simp [emptyLedger, nextSeq] at hi
    · intro i
      simp [emptyLedger, List.lookup]
  have hmap : (order.map f).map Segment.seqNo = order := by
    rw [List.map_map]
    have hcomp : Segment.seqNo ∘ f = id := by funext i; exact hf i
    rw [hcomp, List.map_id]
  have hordnodup : order.Nodup := hperm.nodup_iff.mpr (List.nodup_range _)
  have hnodup : ((order.map f).map Segment.seqNo).Nodup := by
    rw [hmap]; exact hordnodup
  have hgood := applyAll_good (order.map f) emptyLedger _ h0 hnodup
    (by intro s _ hP; exact hP)
  obtain ⟨⟨hstit, hpres⟩, hdr, hkeys⟩ := hgood
  have hkeys' : ∀ i,
      (((applyAll emptyLedger (order.map f)).segments.lookup i).isSome = true) ↔ i ≤ k := by
    intro i
    rw [hkeys i, hmap]
    simp only [or_false]
    rw [hperm.mem_iff, List.mem_range]
    omega
  have hcle : nextSeq (applyAll emptyLedger (order.map f)).cursor ≤ k + 1 := by
    by_contra hgt
    push_neg at hgt
    have hsome := hpres (k + 1) (by omega)
    have := (hkeys' (k + 1)).mp hsome
    omega
  have hceq : nextSeq (applyAll emptyLedger (order.map f)).cursor = k + 1 := by
    rcases Nat.lt_or_ge (nextSeq (applyAll emptyLedger (order.map f)).cursor) (k + 1)
      with hlt | hge
    · exfalso
      have hsome := (hkeys' _).mpr
        (by omega : nextSeq (applyAll emptyLedger (order.map f)).cursor ≤ k)
      unfold Drained at hdr
      rw [hdr] at hsome
      simp at hsome
    · omega
  have hval : ∀ i, i ≤ k →
      (applyAll emptyLedger (order.map f)).segments.lookup i = some (f i) := by
    intro i hi
    have hmem : f i ∈ order.map f :=
      List.mem_map_of_mem f (hperm.mem_iff.mpr (List.mem_range.mpr (by omega)))
    have hl := applyAll_lookup_mem (order.map f) emptyLedger (f i) hmem hnodup
    rwa [hf i] at hl
  have hsteq : ∀ n, n ≤ k + 1 →
      stitchUpTo (applyAll emptyLedger (order.map f)).segments n = stitchOf f n := by
    intro n
    induction n with
    | zero => intro _; rfl
    | succ j ihj =>
      intro hj
      show stitchStrings (stitchUpTo _ j) (transcriptAt _ j)
        = stitchStrings (stitchOf f j) (f j).transcript
      rw [ihj (by omega)]
      congr 1
      unfold transcriptAt
      rw [hval j (by omega)]
  rw [hstit, hceq]
  exact hsteq (k + 1) (le_refl _)

/-- C3: the final stitched text does not depend on the arrival order — for
any fixed assignment of segments to seqNos 0..k, adding them in any
permutation of 0..k produces the same accumulated stitched text as
in-order arrival. -/
theorem stitched_order_independent (k : Nat) (f : Nat → Segment)
    (hf : ∀ i, (f i).seqNo = i) (order : List Nat)
    (hperm : order.Perm (List.range (k + 1))) :
    (applyAll emptyLedger (order.map f)).stitched
      = (applyAll emptyLedger ((List.range (k + 1)).map f)).stitched := by
  rw [applyAll_perm k f hf order hperm,
    applyAll_perm k f hf (List.range (k + 1)) (List.Perm.refl _)]

/-- Witness for C3: adding segment 1 then segment 0 yields the same final
stitched text as adding 0 then 1. -/
theorem stitched_order_independent_witness :
    (applyAll emptyLedger ([1, 0].map (fun i =>
        { seqNo := i, startMs := 0, endMs := 0, durationMs := 0, overlapMs := 0,
          transcript := if i = 0 then "the patient reports a headache"
            else "a headache that started yesterday" }))).stitched
      = (applyAll emptyLedger ((List.range 2).map (fun i =>
        { seqNo := i, startMs := 0, endMs := 0, durationMs := 0, overlapMs := 0,
          transcript := if i = 0 then "the patient reports a headache"
            else "a headache that started yesterday" }))).stitched :=
  stitched_order_independent 1 _ (fun i => rfl) [1, 0] (by decide)

end OpenScribe
